import Mathlib

/-!
Shallow embedding of `assignment.py` (a product-catalog differ).

The program reads two CSV snapshots, converts them to lists of records
(each record an id together with an ordered field mapping), and `main`
yields a stream of operations: for every record of the before snapshot
an UPDATE (when its id is found in the after snapshot, with the after
record's data as payload) or a DELETE (payload `none`); then a CREATE
for every after record whose id is not found in the before snapshot.
-/

namespace Assignment

/-- The `Operation` enum of the source: CREATE, UPDATE, DELETE. -/
inductive Operation where
  | CREATE : Operation
  | UPDATE : Operation
  | DELETE : Operation
  deriving DecidableEq

/-- One converted product: the dictionary `{data: {...}, id: product[0]}`
built by `convert_data_from_csv`.  `data` is an insertion-ordered string
dictionary, modelled as an association list. -/
structure Record where
  id : String
  data : List (String × String)
  deriving DecidableEq

/-- One element of the stream `main` yields: the triple
`(operation, product id, data-or-None)`. -/
structure Op where
  kind : Operation
  id : String
  payload : Option (List (String × String))
  deriving DecidableEq

/-- `find_suitable_product` (lines 111-123): linear scan returning the
first product whose `id` equals `match_id`, else `None`. -/
def find_suitable_product (products : List Record) (match_id : String) : Option Record :=
  match products with
  | [] => none
  | product :: rest =>
    if product.id = match_id then some product
    else find_suitable_product rest match_id

/-- The body of the first loop of `main` (lines 174-179): the single
operation yielded for one before-product. -/
def before_op (after_products : List Record) (before_product : Record) : Op :=
  match find_suitable_product after_products before_product.id with
  | some suitable_product => ⟨Operation.UPDATE, before_product.id, some suitable_product.data⟩
  | none => ⟨Operation.DELETE, before_product.id, none⟩

/-- The second loop of `main` (lines 181-184): one CREATE for every
after-product whose id is not found among the before-products. -/
def create_ops (before_products after_products : List Record) : List Op :=
  after_products.filterMap (fun after_product =>
    match find_suitable_product before_products after_product.id with
    | some _ => none
    | none => some ⟨Operation.CREATE, after_product.id, some after_product.data⟩)

/-- `ProductDiffer.main` (lines 162-184), restricted to its diffing core:
the full sequence of operations yielded for two prepared product lists. -/
def main_diff (before_products after_products : List Record) : List Op :=
  before_products.map (before_op after_products) ++ create_ops before_products after_products

/-- A product list has unique ids (the well-formedness assumption the
assignment states for the `id` column). -/
def uniqueIds (products : List Record) : Prop :=
  (products.map Record.id).Nodup

instance (products : List Record) : Decidable (uniqueIds products) :=
  List.nodupDecidable _

/-- The run-time state of the generator `main`: the two product lists it
holds, and the not-yet-consumed remainder of each of its two loops. -/
structure GenState where
  before_products : List Record
  after_products : List Record
  loop1_rest : List Record
  loop2_rest : List Record
  deriving DecidableEq

/-- Runs the generator `main` to exhaustion from a state: returns every
operation still to be yielded together with the final state.  The two
product lists are threaded through unchanged, exactly as in the source,
where the loops only read them. -/
def gen_run (s : GenState) : List Op × GenState :=
  match s with
  | ⟨bp, ap, b :: r1, r2⟩ =>
    let rest := gen_run ⟨bp, ap, r1, r2⟩
    (before_op ap b :: rest.1, rest.2)
  | ⟨bp, ap, [], a :: r2⟩ =>
    let rest := gen_run ⟨bp, ap, [], r2⟩
    (match find_suitable_product bp a.id with
     | some _ => rest.1
     | none => ⟨Operation.CREATE, a.id, some a.data⟩ :: rest.1, rest.2)
  | ⟨bp, ap, [], []⟩ => ([], ⟨bp, ap, [], []⟩)
  termination_by (s.loop1_rest.length, s.loop2_rest.length)

/-- The initial state of the generator `main` once `prepare_data` has
produced the two product lists. -/
def init_state (before_products after_products : List Record) : GenState :=
  ⟨before_products, after_products, before_products, after_products⟩

/-- Python dictionary assignment `d[k] = v`: replace the value in place
when the key is present, append the pair otherwise. -/
def dictInsert (d : List (String × String)) (k v : String) : List (String × String) :=
  if d.any (fun kv => kv.1 = k) then
    d.map (fun kv => if kv.1 = k then (k, v) else kv)
  else d ++ [(k, v)]

/-- The inner loop of `convert_data_from_csv` (lines 106-107):
`for idx in range(len(headers)): data[headers[idx]] = product[idx]`.
Returns `none` when the row is shorter than the header list (the
source would raise `IndexError`). -/
def buildRowData : List String → List String → Nat → List (String × String) →
    Option (List (String × String))
  | [], _, _, acc => some acc
  | h :: hs, row, idx, acc =>
    match row.get? idx with
    | some v => buildRowData hs row (idx + 1) (dictInsert acc h v)
    | none => none

/-- `convert_data_from_csv` (lines 90-109): converts each CSV row to a
record `{data, id: product[0]}` using the given header names.  Returns
`none` when a row is empty or shorter than the headers (the source
would raise `IndexError`). -/
def convert_data_from_csv (csv_products : List (List String)) (headers : List String) :
    Option (List Record) :=
  match csv_products with
  | [] => some []
  | row :: rest =>
    match row.get? 0, buildRowData headers row 0 [] with
    | some pid, some d =>
      match convert_data_from_csv rest headers with
      | some products => some (⟨pid, d⟩ :: products)
      | none => none
    | _, _ => none

/-- `prepare_data` (lines 138-160): drop the before file's first row,
take the after file's first row as `file_headers`, and convert both
remainders with those headers.  Returns `none` when either file has no
rows at all (the source's `next` would raise). -/
def prepare_data (before_rows after_rows : List (List String)) :
    Option (List Record × List Record) :=
  match before_rows, after_rows with
  | _ :: before_rest, file_headers :: after_rest =>
    match convert_data_from_csv before_rest file_headers,
          convert_data_from_csv after_rest file_headers with
    | some before_csv_products, some after_csv_products =>
      some (before_csv_products, after_csv_products)
    | _, _ => none
  | _, _ => none

/-! General lemmas about the embedded operations. -/

theorem gen_run_loop2 (bp ap : List Record) (l2 : List Record) :
    gen_run ⟨bp, ap, [], l2⟩ = (create_ops bp l2, ⟨bp, ap, [], []⟩) := by
  induction l2 with
  | nil => simp [gen_run, create_ops]
  | cons a rest ih =>
    rw [gen_run]
    cases h : find_suitable_product bp a.id <;>
      simp [h, ih, create_ops, List.filterMap_cons]

theorem gen_run_eq (bp ap : List Record) (l1 l2 : List Record) :
    gen_run ⟨bp, ap, l1, l2⟩ =
      (l1.map (before_op ap) ++ create_ops bp l2, ⟨bp, ap, [], []⟩) := by
  induction l1 with
  | nil => simpa using gen_run_loop2 bp ap l2
  | cons b rest ih =>
    rw [gen_run]
    simp [ih]

theorem before_op_id (ap : List Record) (b : Record) : (before_op ap b).id = b.id := by
  unfold before_op
  cases find_suitable_product ap b.id <;> rfl

theorem before_op_kind (ap : List Record) (b : Record) :
    (before_op ap b).kind = Operation.UPDATE ∨ (before_op ap b).kind = Operation.DELETE := by
  unfold before_op
  cases find_suitable_product ap b.id
  · exact Or.inr rfl
  · exact Or.inl rfl

theorem fsp_eq_none_iff (ps : List Record) (i : String) :
    find_suitable_product ps i = none ↔ ∀ p ∈ ps, p.id ≠ i := by
  induction ps with
  | nil => simp [find_suitable_product]
  | cons q rest ih =>
    by_cases h : q.id = i
    · simp [find_suitable_product, h]
    · simp [find_suitable_product, h, ih]

theorem fsp_some_mem {ps : List Record} {i : String} {p : Record}
    (h : find_suitable_product ps i = some p) : p ∈ ps ∧ p.id = i := by
  induction ps with
  | nil => simp [find_suitable_product] at h
  | cons q rest ih =>
    by_cases hq : q.id = i
    · rw [find_suitable_product, if_pos hq] at h
      cases h
      exact ⟨List.mem_cons_self _ _, hq⟩
    · rw [find_suitable_product, if_neg hq] at h
      obtain ⟨hm, hid⟩ := ih h
      exact ⟨List.mem_cons_of_mem _ hm, hid⟩

theorem fsp_ne_none_of_mem {ps : List Record} {p : Record} (hm : p ∈ ps) :
    find_suitable_product ps p.id ≠ none := by
  intro h
  exact (fsp_eq_none_iff ps p.id).mp h p hm rfl

theorem fsp_of_mem_nodup {ps : List Record} (hn : uniqueIds ps) {p : Record} (hm : p ∈ ps) :
    find_suitable_product ps p.id = some p := by
  induction ps with
  | nil => cases hm
  | cons q rest ih =>
    unfold uniqueIds at hn
    simp only [List.map_cons, List.nodup_cons] at hn
    rcases List.mem_cons.mp hm with rfl | hm'
    · simp [find_suitable_product]
    · have hq : q.id ≠ p.id := by
        intro he
        exact hn.1 (he ▸ List.mem_map_of_mem Record.id hm')
      rw [find_suitable_product, if_neg hq]
      exact ih hn.2 hm'

theorem fsp_first_match (ps : List Record) (i : String) (p : Record) :
    find_suitable_product ps i = some p ↔
      ∃ k, ∃ hk : k < ps.length, ps.get ⟨k, hk⟩ = p ∧ p.id = i ∧
        ∀ q ∈ ps.take k, q.id ≠ i := by
  induction ps with
  | nil => simp [find_suitable_product]
  | cons q rest ih =>
    by_cases hq : q.id = i
    · rw [find_suitable_product, if_pos hq]
      constructor
      · intro h
        cases h
        exact ⟨0, Nat.succ_pos _, rfl, hq, by simp⟩
      · rintro ⟨k, hk, hget, hpid, hearlier⟩
        cases k with
        | zero => cases hget; rfl
        | succ k' =>
          exfalso
          exact hearlier q (by simp [List.take_succ_cons]) hq
    · rw [find_suitable_product, if_neg hq, ih]
      constructor
      · rintro ⟨k, hk, hget, hpid, hearlier⟩
        refine ⟨k + 1, Nat.succ_lt_succ hk, hget, hpid, ?_⟩
        intro x hx
        rcases List.mem_cons.mp (by simpa [List.take_succ_cons] using hx) with rfl | hx'
        · exact hq
        · exact hearlier x hx'
      · rintro ⟨k, hk, hget, hpid, hearlier⟩
        cases k with
        | zero =>
          exfalso
          cases hget
          exact hq hpid
        | succ k' =>
          refine ⟨k', Nat.lt_of_succ_lt_succ hk, hget, hpid, ?_⟩
          intro x hx
          exact hearlier x (by simp [List.take_succ_cons, hx])

theorem create_ops_eq (bp ap : List Record) :
    create_ops bp ap =
      (ap.filter (fun a => (find_suitable_product bp a.id).isNone)).map
        (fun a => ⟨Operation.CREATE, a.id, some a.data⟩) := by
  induction ap with
  | nil => rfl
  | cons a rest ih =>
    cases h : find_suitable_product bp a.id <;>
      simp [create_ops, List.filterMap_cons, List.filter_cons, h, ih, create_ops] at * <;>
      simp [create_ops, List.filterMap_cons, h, ih]

theorem filter_id_single_of_nodup {ps : List Record} (hn : uniqueIds ps)
    {p : Record} (hm : p ∈ ps) :
    ps.filter (fun q => q.id == p.id) = [p] := by
  induction ps with
  | nil => cases hm
  | cons q rest ih =>
    unfold uniqueIds at hn
    simp only [List.map_cons, List.nodup_cons] at hn
    rcases List.mem_cons.mp hm with rfl | hm'
    · rw [List.filter_cons_of_pos (by simp)]
      have hnil : rest.filter (fun q => q.id == p.id) = [] := by
        rw [List.filter_eq_nil_iff]
        intro x hx
        simp only [beq_iff_eq]
        intro he
        exact hn.1 (he ▸ List.mem_map_of_mem Record.id hx)
      rw [hnil]
    · have hq : ¬(q.id == p.id) := by
        simp only [beq_iff_eq]
        intro he
        exact hn.1 (he ▸ List.mem_map_of_mem Record.id hm')
      rw [List.filter_cons_of_neg (by simpa using hq)]
      exact ih hn.2 hm'

theorem filter_id_nil {ps : List Record} {i : String} (h : i ∉ ps.map Record.id) :
    ps.filter (fun q => q.id == i) = [] := by
  rw [List.filter_eq_nil_iff]
  intro q hq
  simp only [beq_iff_eq]
  intro he
  exact h (he ▸ List.mem_map_of_mem Record.id hq)

theorem main_diff_filter_before (before after : List Record) (i : String) :
    (before.map (before_op after)).filter (fun o => o.id == i) =
      (before.filter (fun q => q.id == i)).map (before_op after) := by
  rw [List.filter_map]
  have hpred : ((fun o => o.id == i) ∘ before_op after) = fun q => q.id == i := by
    funext b
    simp [Function.comp, before_op_id]
  rw [hpred]

theorem uniqueIds_filter {ps : List Record} (hn : uniqueIds ps) (p : Record → Bool) :
    uniqueIds (ps.filter p) :=
  List.Nodup.sublist ((List.filter_sublist ps).map Record.id) hn

theorem create_ops_filter (before after : List Record) (i : String) :
    (create_ops before after).filter (fun o => o.id == i) =
      ((after.filter (fun a => (find_suitable_product before a.id).isNone)).filter
        (fun q => q.id == i)).map
        (fun a => ⟨Operation.CREATE, a.id, some a.data⟩) := by
  rw [create_ops_eq, List.filter_map]
  rfl

theorem fsp_none_of_not_mem {ps : List Record} {i : String} (h : i ∉ ps.map Record.id) :
    find_suitable_product ps i = none := by
  rw [fsp_eq_none_iff]
  intro p hp he
  exact h (he ▸ List.mem_map_of_mem Record.id hp)

theorem create_ops_filter_nil_of_mem_before {before : List Record} {i : String}
    (h : i ∈ before.map Record.id) (after : List Record) :
    (create_ops before after).filter (fun o => o.id == i) = [] := by
  rw [create_ops_filter]
  have hnil : (after.filter fun a => (find_suitable_product before a.id).isNone).filter
      (fun q => q.id == i) = [] := by
    rw [List.filter_eq_nil_iff]
    intro x hx
    obtain ⟨hxa, hxnone⟩ := List.mem_filter.mp hx
    simp only [beq_iff_eq]
    intro he
    obtain ⟨p, hp, hpid⟩ := List.mem_map.mp h
    have hnone : find_suitable_product before x.id = none := by
      cases hfsp : find_suitable_product before x.id
      · rfl
      · rw [hfsp] at hxnone
        simp at hxnone
    exact (fsp_eq_none_iff before x.id).mp hnone p hp (by rw [hpid, he])
  rw [hnil]
  rfl

theorem dictInsert_keys {d : List (String × String)} {k v : String}
    {kv : String × String} (h : kv ∈ dictInsert d k v) :
    kv.1 ∈ d.map Prod.fst ∨ kv.1 = k := by
  unfold dictInsert at h
  by_cases hany : d.any (fun x => x.1 = k)
  · rw [if_pos (by simpa using hany)] at h
    obtain ⟨x, hx, hxe⟩ := List.mem_map.mp h
    by_cases hxk : x.1 = k
    · rw [if_pos hxk] at hxe
      right
      rw [← hxe]
    · rw [if_neg hxk] at hxe
      left
      exact hxe ▸ List.mem_map_of_mem Prod.fst hx
  · rw [if_neg (by simpa using hany)] at h
    rcases List.mem_append.mp h with hl | hr
    · exact Or.inl (List.mem_map_of_mem Prod.fst hl)
    · right
      rcases List.mem_singleton.mp hr with rfl
      rfl

theorem buildRowData_keys :
    ∀ (hs : List String) (row : List String) (idx : Nat) (acc : List (String × String))
      (d : List (String × String)), buildRowData hs row idx acc = some d →
      ∀ kv ∈ d, kv.1 ∈ hs ∨ kv.1 ∈ acc.map Prod.fst := by
  intro hs
  induction hs with
  | nil =>
    intro row idx acc d h kv hkv
    cases h
    exact Or.inr (List.mem_map_of_mem Prod.fst hkv)
  | cons h0 hs ih =>
    intro row idx acc d h kv hkv
    rw [buildRowData] at h
    cases hget : row.get? idx with
    | none => rw [hget] at h; cases h
    | some v =>
      rw [hget] at h
      rcases ih row (idx + 1) (dictInsert acc h0 v) d h kv hkv with hin | hacc
      · exact Or.inl (List.mem_cons_of_mem h0 hin)
      · obtain ⟨x, hx, hxe⟩ := List.mem_map.mp hacc
        rcases dictInsert_keys hx with hold | hnew
        · exact Or.inr (hxe ▸ hold)
        · left
          rw [← hxe, hnew]
          exact List.mem_cons_self h0 hs

theorem convert_keys :
    ∀ (rows : List (List String)) (headers : List String) (products : List Record),
      convert_data_from_csv rows headers = some products →
      ∀ r ∈ products, ∀ kv ∈ r.data, kv.1 ∈ headers := by
  intro rows
  induction rows with
  | nil =>
    intro headers products h r hr
    cases h
    cases hr
  | cons row rest ih =>
    intro headers products h r hr kv hkv
    rw [convert_data_from_csv] at h
    cases hget : row.get? 0 with
    | none => rw [hget] at h; cases h
    | some pid =>
      rw [hget] at h
      cases hbuild : buildRowData headers row 0 [] with
      | none => rw [hbuild] at h; cases h
      | some d =>
        rw [hbuild] at h
        cases hrest : convert_data_from_csv rest headers with
        | none => rw [hrest] at h; cases h
        | some ps =>
          rw [hrest] at h
          cases h
          rcases List.mem_cons.mp hr with rfl | hr'
          · rcases buildRowData_keys headers row 0 [] d hbuild kv hkv with hin | habs
            · exact hin
            · simp at habs
          · exact ih headers ps hrest r hr' kv hkv

/-! Claim theorems. -/

/-- Claim C1: for record sets with unique ids, `main` classifies every id
correctly: an id present in both sets yields exactly one operation, an
UPDATE carrying that id's after field mapping; an id only in before
yields exactly a DELETE with `none` payload; an id only in after yields
exactly a CREATE with its after field mapping. -/
theorem C1_classification (before after : List Record)
    (hb : uniqueIds before) (ha : uniqueIds after) :
    (∀ b ∈ before, ∀ a ∈ after, a.id = b.id →
      (main_diff before after).filter (fun o => o.id == b.id) =
        [⟨Operation.UPDATE, b.id, some a.data⟩]) ∧
    (∀ b ∈ before, b.id ∉ after.map Record.id →
      (main_diff before after).filter (fun o => o.id == b.id) =
        [⟨Operation.DELETE, b.id, none⟩]) ∧
    (∀ a ∈ after, a.id ∉ before.map Record.id →
      (main_diff before after).filter (fun o => o.id == a.id) =
        [⟨Operation.CREATE, a.id, some a.data⟩]) := by
  refine ⟨?_, ?_, ?_⟩
  · intro b hbm a ham haid
    unfold main_diff
    rw [List.filter_append, main_diff_filter_before,
        filter_id_single_of_nodup hb hbm,
        create_ops_filter_nil_of_mem_before (List.mem_map_of_mem Record.id hbm) after,
        List.append_nil]
    have hf : find_suitable_product after b.id = some a := by
      rw [← haid]
      exact fsp_of_mem_nodup ha ham
    rw [List.map_cons, List.map_nil]
    unfold before_op
    rw [hf]
  · intro b hbm hnot
    unfold main_diff
    rw [List.filter_append, main_diff_filter_before,
        filter_id_single_of_nodup hb hbm]
    have hcreate : (create_ops before after).filter (fun o => o.id == b.id) = [] := by
      rw [create_ops_filter]
      have hnil : (after.filter fun a => (find_suitable_product before a.id).isNone).filter
          (fun q => q.id == b.id) = [] := by
        rw [List.filter_eq_nil_iff]
        intro x hx
        obtain ⟨hxa, _⟩ := List.mem_filter.mp hx
        simp only [beq_iff_eq]
        intro he
        exact hnot (he ▸ List.mem_map_of_mem Record.id hxa)
      rw [hnil]
      rfl
    rw [hcreate, List.append_nil, List.map_cons, List.map_nil]
    unfold before_op
    rw [fsp_none_of_not_mem hnot]
  · intro a ham hnot
    unfold main_diff
    rw [List.filter_append, main_diff_filter_before, filter_id_nil hnot,
        List.map_nil, List.nil_append, create_ops_filter]
    have hmemf : a ∈ after.filter (fun x => (find_suitable_product before x.id).isNone) := by
      rw [List.mem_filter]
      exact ⟨ham, by rw [fsp_none_of_not_mem hnot]; rfl⟩
    rw [filter_id_single_of_nodup
      (uniqueIds_filter ha (fun x => (find_suitable_product before x.id).isNone)) hmemf]
    rfl

/-- Witness for C1 on the scenario before = 1A,2B and after = 2B2,3C. -/
theorem C1_classification_witness :
    (main_diff
        [⟨"1", [("name", "A")]⟩, ⟨"2", [("name", "B")]⟩]
        [⟨"2", [("name", "B2")]⟩, ⟨"3", [("name", "C")]⟩]).filter
      (fun o => o.id == "2") = [⟨Operation.UPDATE, "2", some [("name", "B2")]⟩] ∧
    (main_diff
        [⟨"1", [("name", "A")]⟩, ⟨"2", [("name", "B")]⟩]
        [⟨"2", [("name", "B2")]⟩, ⟨"3", [("name", "C")]⟩]).filter
      (fun o => o.id == "1") = [⟨Operation.DELETE, "1", none⟩] ∧
    (main_diff
        [⟨"1", [("name", "A")]⟩, ⟨"2", [("name", "B")]⟩]
        [⟨"2", [("name", "B2")]⟩, ⟨"3", [("name", "C")]⟩]).filter
      (fun o => o.id == "3") = [⟨Operation.CREATE, "3", some [("name", "C")]⟩] := by
  have h := C1_classification
      [⟨"1", [("name", "A")]⟩, ⟨"2", [("name", "B")]⟩]
      [⟨"2", [("name", "B2")]⟩, ⟨"3", [("name", "C")]⟩] (by decide) (by decide)
  refine ⟨?_, ?_, ?_⟩
  · exact h.1 ⟨"2", [("name", "B")]⟩ (by decide) ⟨"2", [("name", "B2")]⟩ (by decide) rfl
  · exact h.2.1 ⟨"1", [("name", "A")]⟩ (by decide) (by decide)
  · exact h.2.2 ⟨"3", [("name", "C")]⟩ (by decide) (by decide)

/-- Claim C2: an id found in both sets yields an UPDATE unconditionally,
with no comparison of the two field mappings, and the payload is the
after record's full field mapping, never the before record's. -/
theorem C2_unconditional_update (before after : List Record) (b a : Record)
    (hb : b ∈ before) (hfind : find_suitable_product after b.id = some a) :
    before_op after b = ⟨Operation.UPDATE, b.id, some a.data⟩ ∧
    (⟨Operation.UPDATE, b.id, some a.data⟩ : Op) ∈ main_diff before after := by
  have h1 : before_op after b = ⟨Operation.UPDATE, b.id, some a.data⟩ := by
    unfold before_op
    rw [hfind]
  refine ⟨h1, ?_⟩
  unfold main_diff
  exact List.mem_append_left _ (h1 ▸ List.mem_map_of_mem (before_op after) hb)

/-- Witness for C2 on inputs whose before and after field mappings are
identical: the UPDATE is still emitted. -/
theorem C2_unconditional_update_witness :
    before_op [⟨"1", [("name", "A")]⟩] ⟨"1", [("name", "A")]⟩ =
      ⟨Operation.UPDATE, "1", some [("name", "A")]⟩ ∧
    (⟨Operation.UPDATE, "1", some [("name", "A")]⟩ : Op) ∈
      main_diff [⟨"1", [("name", "A")]⟩] [⟨"1", [("name", "A")]⟩] :=
  C2_unconditional_update [⟨"1", [("name", "A")]⟩] [⟨"1", [("name", "A")]⟩]
    ⟨"1", [("name", "A")]⟩ ⟨"1", [("name", "A")]⟩ (by decide) (by decide)

/-- Claim C3: for record sets with unique ids, every id of the union of
the two id sets occurs exactly once among the output operations' ids,
and no other id occurs. -/
theorem C3_completeness (before after : List Record)
    (hb : uniqueIds before) (ha : uniqueIds after) (i : String) :
    ((main_diff before after).map Op.id).count i =
      if i ∈ before.map Record.id ∨ i ∈ after.map Record.id then 1 else 0 := by
  unfold main_diff
  rw [List.map_append, List.count_append]
  have hcomp : (Op.id ∘ before_op after) = Record.id := funext fun b => before_op_id after b
  rw [List.map_map, hcomp]
  have hcreate : (create_ops before after).map Op.id =
      (after.filter (fun a => (find_suitable_product before a.id).isNone)).map Record.id := by
    rw [create_ops_eq, List.map_map]
    rfl
  rw [hcreate]
  by_cases hib : i ∈ before.map Record.id
  · rw [List.count_eq_one_of_mem hb hib]
    have hnot2 : i ∉ (after.filter
        (fun a => (find_suitable_product before a.id).isNone)).map Record.id := by
      intro hmem
      obtain ⟨x, hx, hxid⟩ := List.mem_map.mp hmem
      obtain ⟨_, hxnone⟩ := List.mem_filter.mp hx
      obtain ⟨p, hp, hpid⟩ := List.mem_map.mp hib
      have hnone : find_suitable_product before x.id = none := by
        cases hfsp : find_suitable_product before x.id
        · rfl
        · rw [hfsp] at hxnone
          simp at hxnone
      exact (fsp_eq_none_iff before x.id).mp hnone p hp (by rw [hpid, ← hxid])
    rw [List.count_eq_zero_of_not_mem hnot2, if_pos (Or.inl hib)]
  · rw [List.count_eq_zero_of_not_mem hib]
    by_cases hia : i ∈ after.map Record.id
    · obtain ⟨x, hx, hxid⟩ := List.mem_map.mp hia
      have hmemf : x ∈ after.filter
          (fun y => (find_suitable_product before y.id).isNone) := by
        rw [List.mem_filter]
        refine ⟨hx, ?_⟩
        rw [fsp_none_of_not_mem (hxid ▸ hib)]
        rfl
      have hone : ((after.filter
          (fun y => (find_suitable_product before y.id).isNone)).map Record.id).count i = 1 := by
        apply List.count_eq_one_of_mem
        · exact uniqueIds_filter ha _
        · exact hxid ▸ List.mem_map_of_mem Record.id hmemf
      rw [hone, if_pos (Or.inr hia)]
    · have hnot2 : i ∉ (after.filter
          (fun a => (find_suitable_product before a.id).isNone)).map Record.id := by
        intro hmem
        obtain ⟨x, hx, hxid⟩ := List.mem_map.mp hmem
        obtain ⟨hxa, _⟩ := List.mem_filter.mp hx
        exact hia (hxid ▸ List.mem_map_of_mem Record.id hxa)
      rw [List.count_eq_zero_of_not_mem hnot2]
      rw [if_neg (by simp [hib, hia])]

/-- Witness for C3: on the scenario inputs, id 2 occurs exactly once in
the output. -/
theorem C3_completeness_witness :
    ((main_diff [⟨"1", [("name", "A")]⟩, ⟨"2", [("name", "B")]⟩]
        [⟨"2", [("name", "B2")]⟩, ⟨"3", [("name", "C")]⟩]).map Op.id).count "2" = 1 := by
  rw [C3_completeness
      [⟨"1", [("name", "A")]⟩, ⟨"2", [("name", "B")]⟩]
      [⟨"2", [("name", "B2")]⟩, ⟨"3", [("name", "C")]⟩] (by decide) (by decide) "2"]
  decide

/-- Claim C4: the output splits as the before-derived operations (one
per before record, in before order, each UPDATE or DELETE) followed by
only CREATE operations whose ids follow after's iteration order. -/
theorem C4_ordering (before after : List Record) :
    main_diff before after = before.map (before_op after) ++ create_ops before after ∧
    (before.map (before_op after)).map Op.id = before.map Record.id ∧
    (∀ o ∈ before.map (before_op after),
      o.kind = Operation.UPDATE ∨ o.kind = Operation.DELETE) ∧
    (∀ o ∈ create_ops before after, o.kind = Operation.CREATE) ∧
    List.Sublist ((create_ops before after).map Op.id) (after.map Record.id) := by
  refine ⟨rfl, ?_, ?_, ?_, ?_⟩
  · rw [List.map_map]
    exact congrArg (before.map ·) (funext fun b => before_op_id after b)
  · intro o ho
    obtain ⟨b, _, rfl⟩ := List.mem_map.mp ho
    exact before_op_kind after b
  · intro o ho
    rw [create_ops_eq] at ho
    obtain ⟨x, _, rfl⟩ := List.mem_map.mp ho
    rfl
  · rw [create_ops_eq, List.map_map]
    exact (List.filter_sublist after).map Record.id

/-- Witness for C4: the kind of the operation derived from a concrete
before record, obtained through the theorem. -/
theorem C4_ordering_witness :
    (⟨Operation.UPDATE, "1", some [("name", "A2")]⟩ : Op).kind = Operation.UPDATE ∨
    (⟨Operation.UPDATE, "1", some [("name", "A2")]⟩ : Op).kind = Operation.DELETE := by
  have h := C4_ordering [⟨"1", [("name", "A")]⟩] [⟨"1", [("name", "A2")]⟩]
  exact h.2.2.1 ⟨Operation.UPDATE, "1", some [("name", "A2")]⟩ (by decide)

/-- Claim C5: empty-set laws.  An empty before set yields one CREATE per
after record in after order; an empty after set yields one DELETE with
`none` payload per before record in before order; two empty sets yield
the empty sequence. -/
theorem C5_empty_set_laws (before after : List Record) :
    main_diff [] after = after.map (fun a => ⟨Operation.CREATE, a.id, some a.data⟩) ∧
    main_diff before [] = before.map (fun b => ⟨Operation.DELETE, b.id, none⟩) ∧
    main_diff ([] : List Record) ([] : List Record) = ([] : List Op) := by
  refine ⟨?_, ?_, rfl⟩
  · unfold main_diff
    rw [List.map_nil, List.nil_append, create_ops_eq]
    have hall : after.filter (fun a => (find_suitable_product [] a.id).isNone) = after := by
      rw [List.filter_eq_self]
      intro a _
      rfl
    rw [hall]
  · unfold main_diff
    have h2 : create_ops before [] = [] := rfl
    rw [h2, List.append_nil]
    rfl

/-- Claim C6: on the concrete scenario before = 1A,2B and after =
2B2,3C, `main` produces exactly DELETE(1, none), UPDATE(2, after 2's
fields), CREATE(3, after 3's fields), in that order. -/
theorem C6_scenario :
    main_diff
        [⟨"1", [("id", "1"), ("name", "A")]⟩, ⟨"2", [("id", "2"), ("name", "B")]⟩]
        [⟨"2", [("id", "2"), ("name", "B2")]⟩, ⟨"3", [("id", "3"), ("name", "C")]⟩] =
      [⟨Operation.DELETE, "1", none⟩,
       ⟨Operation.UPDATE, "2", some [("id", "2"), ("name", "B2")]⟩,
       ⟨Operation.CREATE, "3", some [("id", "3"), ("name", "C")]⟩] := by
  decide

/-- Claim C7: fully consuming the generator leaves both input record
lists unchanged in the final state, while producing exactly the diff
sequence. -/
theorem C7_no_mutation (before after : List Record) :
    (gen_run (init_state before after)).2.before_products = before ∧
    (gen_run (init_state before after)).2.after_products = after ∧
    (gen_run (init_state before after)).1 = main_diff before after := by
  rw [init_state, gen_run_eq]
  exact ⟨rfl, rfl, rfl⟩

/-- Claim C8: running the generator a second time, initialised from the
record lists held in the state left by a first full run, yields the
identical output sequence. -/
theorem C8_determinism (before after : List Record) :
    (gen_run (init_state
        (gen_run (init_state before after)).2.before_products
        (gen_run (init_state before after)).2.after_products)).1 =
      (gen_run (init_state before after)).1 ∧
    (gen_run (init_state before after)).1 = main_diff before after := by
  simp only [init_state, gen_run_eq]
  exact ⟨trivial, rfl⟩

/-- Claim C9: `find_suitable_product` returns the first record in list
order whose id equals the searched id, and `none` when no record
matches; consequently an UPDATE's payload is the data of the record it
returns, the earliest after record carrying the id. -/
theorem C9_first_match_policy (ps : List Record) (i : String) :
    (∀ p, find_suitable_product ps i = some p ↔
      ∃ k, ∃ hk : k < ps.length, ps.get ⟨k, hk⟩ = p ∧ p.id = i ∧
        ∀ q ∈ ps.take k, q.id ≠ i) ∧
    (find_suitable_product ps i = none ↔ ∀ q ∈ ps, q.id ≠ i) ∧
    (∀ before b, b ∈ before → ∀ a, find_suitable_product ps b.id = some a →
      (⟨Operation.UPDATE, b.id, some a.data⟩ : Op) ∈ main_diff before ps) := by
  refine ⟨fun p => fsp_first_match ps i p, fsp_eq_none_iff ps i, ?_⟩
  intro before b hb a hfind
  have h1 : before_op ps b = ⟨Operation.UPDATE, b.id, some a.data⟩ := by
    unfold before_op
    rw [hfind]
  unfold main_diff
  exact List.mem_append_left _ (h1 ▸ List.mem_map_of_mem (before_op ps) hb)

/-- Witness for C9 on an after list with a duplicated id: the earliest
matching record is found and its data becomes the UPDATE payload. -/
theorem C9_first_match_policy_witness :
    find_suitable_product [⟨"2", [("v", "first")]⟩, ⟨"2", [("v", "second")]⟩] "2" =
      some ⟨"2", [("v", "first")]⟩ ∧
    (⟨Operation.UPDATE, "2", some [("v", "first")]⟩ : Op) ∈
      main_diff [⟨"2", [("v", "old")]⟩]
        [⟨"2", [("v", "first")]⟩, ⟨"2", [("v", "second")]⟩] := by
  have h := C9_first_match_policy [⟨"2", [("v", "first")]⟩, ⟨"2", [("v", "second")]⟩] "2"
  constructor
  · exact (h.1 ⟨"2", [("v", "first")]⟩).mpr ⟨0, by decide, rfl, rfl, by decide⟩
  · exact h.2.2 [⟨"2", [("v", "old")]⟩] ⟨"2", [("v", "old")]⟩ (by decide)
      ⟨"2", [("v", "first")]⟩ (by decide)

/-- Claim C10: `prepare_data` discards the before file's header row
(the result does not depend on it) and uses the after file's header row
as the field-name schema for both conversions, so every converted
record's field keys come from the after file's header. -/
theorem C10_header_schema (bh bh' ah : List String) (b_rows a_rows : List (List String)) :
    prepare_data (bh :: b_rows) (ah :: a_rows) = prepare_data (bh' :: b_rows) (ah :: a_rows) ∧
    (∀ before_products after_products,
      prepare_data (bh :: b_rows) (ah :: a_rows) = some (before_products, after_products) →
      ∀ r ∈ before_products ++ after_products, ∀ kv ∈ r.data, kv.1 ∈ ah) := by
  refine ⟨rfl, ?_⟩
  intro bp ap h r hr kv hkv
  rw [prepare_data] at h
  cases hb1 : convert_data_from_csv b_rows ah with
  | none => rw [hb1] at h; cases h
  | some bps =>
    rw [hb1] at h
    cases ha1 : convert_data_from_csv a_rows ah with
    | none => rw [ha1] at h; cases h
    | some aps =>
      rw [ha1] at h
      cases h
      rcases List.mem_append.mp hr with hrb | hra
      · exact convert_keys b_rows ah bp hb1 r hrb kv hkv
      · exact convert_keys a_rows ah ap ha1 r hra kv hkv

/-- Witness for C10 on concrete CSV contents whose before header names
differ from the after header names. -/
theorem C10_header_schema_witness :
    prepare_data [["idx", "nm"], ["1", "A"]] [["id", "name"], ["1", "B"]] =
      prepare_data [["col1", "col2"], ["1", "A"]] [["id", "name"], ["1", "B"]] ∧
    ("name", "A").1 ∈ ["id", "name"] := by
  have h := C10_header_schema ["idx", "nm"] ["col1", "col2"] ["id", "name"]
      [["1", "A"]] [["1", "B"]]
  refine ⟨h.1, ?_⟩
  exact h.2 [⟨"1", [("id", "1"), ("name", "A")]⟩] [⟨"1", [("id", "1"), ("name", "B")]⟩]
    (by decide) ⟨"1", [("id", "1"), ("name", "A")]⟩ (by decide) ("name", "A") (by decide)

end Assignment
